import Mathlib

/-!
Verification development for the sourcing-agent backend.

Part 1 embeds the paginated fetcher `GoogleSearchService.search_multiple_pages`
(src/app/services/google_search_service.py).  The external provider call
`search_and_parse` is modelled as a function from (number requested, start
index) to a page outcome: either a parsed item list or an HTTP-status error
(the only exception the loop catches).  The loop body is embedded faithfully:
the target is clamped to 100, pages start at 1 and advance by 10,
each call requests `min 10 (total - start + 1)` items, a short page or an
HTTP error breaks the loop, and accumulated items are returned.  Besides the
item list we record the log of (num, start) provider calls actually issued,
so that call counts and request sizes are observable.

Part 2 embeds the repository layer over an explicit database state.
-/

/-- Outcome of one provider call: a parsed page, or an HTTP-status error. -/
inductive PageResult (α : Type) where
  | ok (items : List α) : PageResult α
  | httpError : PageResult α
deriving DecidableEq, Repr

/-- Items carried by a page outcome; an error page carries none. -/
def PageResult.okItems {α : Type} : PageResult α → List α
  | .ok items => items
  | .httpError => []

/-- The `for start in range(1, total+1, 10)` loop of `search_multiple_pages`,
with `k` the number of loop iterations remaining and `start` the current start
index.  Returns the accumulated items together with the log of
(num requested, start index) provider calls made, in call order. -/
def fetchPages {α : Type} (fetch : Nat → Nat → PageResult α) (total : Nat) :
    Nat → Nat → List α × List (Nat × Nat)
  | 0, _ => ([], [])
  | k + 1, start =>
    let num := min 10 (total + 1 - start)
    match fetch num start with
    | .httpError => ([], [(num, start)])
    | .ok items =>
      if items.length < num then (items, [(num, start)])
      else
        let rest := fetchPages fetch total k (start + 10)
        (items ++ rest.1, (num, start) :: rest.2)

/-- `search_multiple_pages`: clamp the target to the provider maximum of 100,
then fetch pages of 10 starting at index 1.  `range(1, total+1, 10)` runs for
`(total + 9) / 10` iterations. -/
def search_multiple_pages {α : Type} (fetch : Nat → Nat → PageResult α)
    (total_results : Nat) : List α × List (Nat × Nat) :=
  let total := min total_results 100
  fetchPages fetch total ((total + 9) / 10) 1

theorem fetchPages_log_length {α : Type} (fetch : Nat → Nat → PageResult α)
    (total : Nat) : ∀ k start, ((fetchPages fetch total k start).2).length ≤ k := by
  intro k
  induction k with
  | zero => intro start; simp [fetchPages]
  | succ k ih =>
    intro start
    simp only [fetchPages]
    cases h : fetch (min 10 (total + 1 - start)) start with
    | httpError => simp
    | ok items =>
      by_cases hlt : items.length < min 10 (total + 1 - start)
      · simp [hlt]
      · simpa [hlt] using Nat.succ_le_succ (ih (start + 10))

theorem fetchPages_log_mem {α : Type} (fetch : Nat → Nat → PageResult α)
    (total : Nat) : ∀ k start p, p ∈ (fetchPages fetch total k start).2 →
    start ≤ p.2 ∧ p.2 < start + 10 * k ∧ p.1 = min 10 (total + 1 - p.2) := by
  intro k
  induction k with
  | zero => intro start p hp; simp [fetchPages] at hp
  | succ k ih =>
    intro start p hp
    simp only [fetchPages] at hp
    cases h : fetch (min 10 (total + 1 - start)) start with
    | httpError =>
      rw [h] at hp
      simp at hp
      subst hp
      refine ⟨Nat.le_refl _, ?_, rfl⟩
      omega
    | ok items =>
      rw [h] at hp
      by_cases hlt : items.length < min 10 (total + 1 - start)
      · simp [hlt] at hp
        subst hp
        refine ⟨Nat.le_refl _, ?_, rfl⟩
        omega
      · simp [hlt] at hp
        rcases hp with hp | hp
        · subst hp
          refine ⟨Nat.le_refl _, ?_, rfl⟩
          omega
        · rcases ih (start + 10) p hp with ⟨h1, h2, h3⟩
          refine ⟨by omega, by omega, h3⟩

theorem fetchPages_items_length {α : Type} (fetch : Nat → Nat → PageResult α)
    (total : Nat)
    (hfetch : ∀ n s items, fetch n s = .ok items → items.length ≤ n) :
    ∀ k start, ((fetchPages fetch total k start).1).length ≤ total + 1 - start := by
  intro k
  induction k with
  | zero => intro start; simp [fetchPages]
  | succ k ih =>
    intro start
    simp only [fetchPages]
    cases h : fetch (min 10 (total + 1 - start)) start with
    | httpError => simp
    | ok items =>
      have hlen : items.length ≤ min 10 (total + 1 - start) := hfetch _ _ _ h
      by_cases hlt : items.length < min 10 (total + 1 - start)
      · simp only [hlt, if_true]
        omega
      · simp only [hlt, if_false]
        have hrest := ih (start + 10)
        simp only [List.length_append]
        omega

/-- The returned items are exactly the concatenation, in call order, of the
items of the logged provider calls. -/
theorem fetchPages_items_eq_join {α : Type} (fetch : Nat → Nat → PageResult α)
    (total : Nat) : ∀ k start,
    (fetchPages fetch total k start).1 =
      ((fetchPages fetch total k start).2.map
        (fun p => (fetch p.1 p.2).okItems)).flatten := by
  intro k
  induction k with
  | zero => intro start; simp [fetchPages]
  | succ k ih =>
    intro start
    simp only [fetchPages]
    cases h : fetch (min 10 (total + 1 - start)) start with
    | httpError => simp [h, PageResult.okItems]
    | ok items =>
      by_cases hlt : items.length < min 10 (total + 1 - start)
      · simp [hlt, h, PageResult.okItems]
      · simp only [hlt, if_false, List.map_cons, List.flatten_cons, h,
          PageResult.okItems]
        exact congrArg (items ++ ·) (ih (start + 10))

/-- The call log is always the schedule of consecutive page calls from the
current start: a prefix of the pages `start, start + 10, ...`. -/
theorem fetchPages_log_shape {α : Type} (fetch : Nat → Nat → PageResult α)
    (total : Nat) : ∀ k start, ∃ j, j ≤ k ∧
    (fetchPages fetch total k start).2 =
      (List.range j).map
        (fun i => (min 10 (total + 1 - (start + 10 * i)), start + 10 * i)) := by
  intro k
  induction k with
  | zero => intro start; exact ⟨0, Nat.le_refl _, by simp [fetchPages]⟩
  | succ k ih =>
    intro start
    simp only [fetchPages]
    cases h : fetch (min 10 (total + 1 - start)) start with
    | httpError =>
      refine ⟨1, by omega, ?_⟩
      simp [List.range_succ]
    | ok items =>
      by_cases hlt : items.length < min 10 (total + 1 - start)
      · refine ⟨1, by omega, ?_⟩
        simp [hlt, List.range_succ]
      · rcases ih (start + 10) with ⟨j, hj, hlog⟩
        refine ⟨j + 1, by omega, ?_⟩
        simp only [hlt, if_false]
        rw [hlog, List.range_succ_eq_map, List.map_cons, List.map_map]
        congr 1
        refine List.map_congr_left ?_
        intro i _
        simp only [Function.comp_apply, Nat.succ_eq_add_one, Prod.mk.injEq]
        constructor <;> omega

/-- Error page at schedule position `j` (pages before it full): the loop
returns exactly the items of the pages before the failure, and the call log
is the schedule up to and including the failing call, which is issued once
and never retried. -/
theorem fetchPages_error_at {α : Type} (fetch : Nat → Nat → PageResult α)
    (total : Nat) : ∀ j k start (pages : Nat → List α), j < k →
    (∀ i, i < j →
      fetch (min 10 (total + 1 - (start + 10 * i))) (start + 10 * i) =
        .ok (pages i) ∧
      (pages i).length = min 10 (total + 1 - (start + 10 * i))) →
    fetch (min 10 (total + 1 - (start + 10 * j))) (start + 10 * j) =
      .httpError →
    fetchPages fetch total k start =
      (((List.range j).map pages).flatten,
       (List.range (j + 1)).map
         (fun i => (min 10 (total + 1 - (start + 10 * i)), start + 10 * i))) := by
  intro j
  induction j with
  | zero =>
    intro k start pages hk _ herr
    cases k with
    | zero => omega
    | succ k =>
      simp only [Nat.mul_zero, Nat.add_zero] at herr
      simp [fetchPages, herr, List.range_succ]
  | succ j ih =>
    intro k start pages hk hfull herr
    cases k with
    | zero => omega
    | succ k =>
      have h0 := hfull 0 (Nat.succ_pos j)
      simp only [Nat.mul_zero, Nat.add_zero] at h0
      simp only [fetchPages, h0.1]
      have hnotlt : ¬(pages 0).length < min 10 (total + 1 - start) := by
        rw [h0.2]
        exact Nat.lt_irrefl _
      simp only [hnotlt, if_false]
      have harg : ∀ i, start + 10 + 10 * i = start + 10 * (i + 1) := by
        intro i; omega
      have hfull' : ∀ i, i < j →
          fetch (min 10 (total + 1 - (start + 10 + 10 * i))) (start + 10 + 10 * i) =
            .ok (pages (i + 1)) ∧
          (pages (i + 1)).length = min 10 (total + 1 - (start + 10 + 10 * i)) := by
        intro i hi
        rw [harg i]
        exact hfull (i + 1) (by omega)
      have herr' :
          fetch (min 10 (total + 1 - (start + 10 + 10 * j))) (start + 10 + 10 * j) =
            .httpError := by
        rw [harg j]
        exact herr
      rw [ih k (start + 10) (fun i => pages (i + 1)) (by omega) hfull' herr']
      simp only [Prod.mk.injEq]
      constructor
      · rw [List.range_succ_eq_map, List.map_cons, List.flatten_cons, List.map_map]
        rfl
      · conv_rhs => rw [List.range_succ_eq_map]
        rw [List.map_cons, List.map_map]
        simp only [Nat.mul_zero, Nat.add_zero]
        congr 1
        refine List.map_congr_left ?_
        intro i _
        simp only [Function.comp_apply, Nat.succ_eq_add_one, Prod.mk.injEq]
        constructor <;> omega

/-- Claim C3: a page that returns strictly fewer items than requested stops
pagination, and in the concrete scenario (5 items on page 1, target 30) the
fetcher returns exactly those 5 items and issues exactly one provider call. -/
theorem claim_C3_short_page_early_exit :
    (∀ (α : Type) (fetch : Nat → Nat → PageResult α) (total k start : Nat)
        (items : List α),
      fetch (min 10 (total + 1 - start)) start = .ok items →
      items.length < min 10 (total + 1 - start) →
      fetchPages fetch total (k + 1) start =
        (items, [(min 10 (total + 1 - start), start)])) ∧
    (∀ (α : Type) (fetch : Nat → Nat → PageResult α) (items : List α),
      fetch 10 1 = .ok items → items.length = 5 →
      search_multiple_pages fetch 30 = (items, [(10, 1)])) := by
  constructor
  · intro α fetch total k start items h hlt
    simp [fetchPages, h, hlt]
  · intro α fetch items h hlen
    have h30 : search_multiple_pages fetch 30 = fetchPages fetch 30 3 1 := rfl
    rw [h30]
    have hnum : min 10 (30 + 1 - 1) = 10 := by norm_num
    simp [fetchPages, hnum, h, hlen]

/-- A page-1 provider that returns 5 fixed items and errors on later pages. -/
def fetchFive : Nat → Nat → PageResult Nat :=
  fun _ start => if start = 1 then .ok [0, 1, 2, 3, 4] else .httpError

theorem claim_C3_witness :
    search_multiple_pages fetchFive 30 = ([0, 1, 2, 3, 4], [(10, 1)]) :=
  claim_C3_short_page_early_exit.2 Nat fetchFive [0, 1, 2, 3, 4]
    (by decide) (by decide)

/-- Claim C4: a target above the provider maximum of 100 is clamped to 100
before any call: the run is identical to a run with target 100, at most 10
provider calls are made, every call's start index stays within the clamped
total and requests at most 10 items, and at most 100 items are requested in
total. -/
theorem claim_C4_target_clamped (α : Type) (fetch : Nat → Nat → PageResult α)
    (t : Nat) (ht : 100 < t) :
    search_multiple_pages fetch t = search_multiple_pages fetch 100 ∧
    ((search_multiple_pages fetch t).2).length ≤ 10 ∧
    (∀ p ∈ (search_multiple_pages fetch t).2, p.2 ≤ 100 ∧ p.1 ≤ 10) ∧
    (((search_multiple_pages fetch t).2).map Prod.fst).sum ≤ 100 := by
  have hclamp : min t 100 = 100 := by omega
  have hrw : search_multiple_pages fetch t = fetchPages fetch 100 10 1 := by
    simp [search_multiple_pages, hclamp]
  have hrw100 : search_multiple_pages fetch 100 = fetchPages fetch 100 10 1 := by
    simp [search_multiple_pages]
  refine ⟨hrw.trans hrw100.symm, ?_, ?_, ?_⟩
  · rw [hrw]
    exact fetchPages_log_length fetch 100 10 1
  · rw [hrw]
    intro p hp
    rcases fetchPages_log_mem fetch 100 10 1 p hp with ⟨h1, h2, h3⟩
    refine ⟨by omega, ?_⟩
    rw [h3]
    exact Nat.min_le_left _ _
  · rw [hrw]
    have hbound : ∀ x ∈ ((fetchPages fetch 100 10 1).2).map Prod.fst, x ≤ 10 := by
      intro x hx
      rcases List.mem_map.mp hx with ⟨p, hp, hpx⟩
      rcases fetchPages_log_mem fetch 100 10 1 p hp with ⟨_, _, h3⟩
      rw [← hpx, h3]
      exact Nat.min_le_left _ _
    have hsum := List.sum_le_card_nsmul _ 10 hbound
    have hlen : (((fetchPages fetch 100 10 1).2).map Prod.fst).length ≤ 10 := by
      rw [List.length_map]
      exact fetchPages_log_length fetch 100 10 1
    simp only [smul_eq_mul] at hsum
    calc (((fetchPages fetch 100 10 1).2).map Prod.fst).sum
        ≤ (((fetchPages fetch 100 10 1).2).map Prod.fst).length * 10 := hsum
      _ ≤ 10 * 10 := Nat.mul_le_mul_right 10 hlen
      _ ≤ 100 := by norm_num

theorem claim_C4_witness :
    search_multiple_pages fetchFive 250 = search_multiple_pages fetchFive 100 ∧
    ((search_multiple_pages fetchFive 250).2).length ≤ 10 :=
  ⟨(claim_C4_target_clamped Nat fetchFive 250 (by norm_num)).1,
   (claim_C4_target_clamped Nat fetchFive 250 (by norm_num)).2.1⟩

/-- Claim C5: if the provider call for schedule page `j` fails with an HTTP
error (the earlier pages being full), `search_multiple_pages` returns — with
no exception — exactly the items accumulated from the pages fetched before
the failure, and the failing call appears once at the end of the call log:
it is never retried and no later page is fetched. -/
theorem claim_C5_partial_failure (α : Type) (fetch : Nat → Nat → PageResult α)
    (t j : Nat) (pages : Nat → List α)
    (hj : j < (min t 100 + 9) / 10)
    (hfull : ∀ i, i < j →
      fetch (min 10 (min t 100 + 1 - (1 + 10 * i))) (1 + 10 * i) =
        .ok (pages i) ∧
      (pages i).length = min 10 (min t 100 + 1 - (1 + 10 * i)))
    (herr : fetch (min 10 (min t 100 + 1 - (1 + 10 * j))) (1 + 10 * j) =
      .httpError) :
    search_multiple_pages fetch t =
      (((List.range j).map pages).flatten,
       (List.range (j + 1)).map
         (fun i => (min 10 (min t 100 + 1 - (1 + 10 * i)), 1 + 10 * i))) :=
  fetchPages_error_at fetch (min t 100) j ((min t 100 + 9) / 10) 1 pages
    hj hfull herr

/-- A provider returning a full page 1 of ten items and an HTTP error on
every later page. -/
def fetchErrOnPage2 : Nat → Nat → PageResult Nat :=
  fun _ start => if start = 1 then .ok (List.range 10) else .httpError

/-- The page contents of `fetchErrOnPage2`. -/
def pagesTen : Nat → List Nat := fun _ => List.range 10

theorem claim_C5_witness :
    search_multiple_pages fetchErrOnPage2 30 =
      (List.range 10, [(10, 1), (10, 11)]) := by
  have h := claim_C5_partial_failure Nat fetchErrOnPage2 30 1 pagesTen
    (by decide) (by decide) (by decide)
  rw [h]
  rfl

/-- Claim C7: the returned list is the concatenation, first page first and in
the order returned, of the logged calls' items; the call log is a prefix of
the page schedule starting at page 1; and, when the provider honours the
requested page size, the returned length never exceeds the requested target. -/
theorem claim_C7_order_and_truncation (α : Type)
    (fetch : Nat → Nat → PageResult α) (t : Nat)
    (hfetch : ∀ n s items, fetch n s = .ok items → items.length ≤ n) :
    (search_multiple_pages fetch t).1 =
      (((search_multiple_pages fetch t).2).map
        (fun p => (fetch p.1 p.2).okItems)).flatten ∧
    (∃ j, j ≤ (min t 100 + 9) / 10 ∧
      (search_multiple_pages fetch t).2 =
        (List.range j).map
          (fun i => (min 10 (min t 100 + 1 - (1 + 10 * i)), 1 + 10 * i))) ∧
    ((search_multiple_pages fetch t).1).length ≤ t := by
  refine ⟨?_, ?_, ?_⟩
  · exact fetchPages_items_eq_join fetch (min t 100) ((min t 100 + 9) / 10) 1
  · exact fetchPages_log_shape fetch (min t 100) ((min t 100 + 9) / 10) 1
  · have h := fetchPages_items_length fetch (min t 100) hfetch
      ((min t 100 + 9) / 10) 1
    have hb : ((search_multiple_pages fetch t).1).length ≤ min t 100 + 1 - 1 := h
    omega

/-- A provider that always answers with at most the requested number of
items (five of them at most). -/
def cappedFetch : Nat → Nat → PageResult Nat :=
  fun n _ => .ok (List.range (min n 5))

theorem claim_C7_witness :
    ((search_multiple_pages cappedFetch 30).1).length ≤ 30 := by
  have hfetch : ∀ n s items, cappedFetch n s = .ok items → items.length ≤ n := by
    intro n s items h
    simp only [cappedFetch, PageResult.ok.injEq] at h
    rw [← h, List.length_range]
    omega
  exact (claim_C7_order_and_truncation Nat cappedFetch 30 hfetch).2.2

/-!
Part 2: the repository layer (src/app/repositories/) over an explicit
database state.  Timestamps are abstract ticks (`Nat`), passed in for each
`datetime.now(timezone.utc)` the code takes.  Nullable columns are `Option`;
the nullable `linkedin_url` column is a `String`, with `""` standing for an
absent URL (that is the value `create_batch` stores for a missing `link`,
and `get_by_linkedin_url` refuses to look it up).  `db.add` appends a row;
a mutated ORM object is the first row matched by the preceding query.
-/

/-- A parsed search-result payload: the dictionary fields that
`create_batch` reads out of each item (`payload.get("link" / "name" /
"snippet" / "description", "")`).  The record itself stands for the full raw
payload stored in `result_payload`. -/
structure Payload where
  link : String
  name : String
  snippet : String
  description : String
deriving DecidableEq, Repr

/-- Row of the `search_queries` table (src/app/models/search_query.py). -/
structure SearchQueryRow where
  id : Nat
  user_input : String
  generated_query : String
  last_search_date : Option Nat
  created_user_id : Nat
  last_run_user_id : Option Nat
  created_at : Nat
deriving DecidableEq, Repr

/-- Row of the `search_results` table (src/app/models/search_result.py). -/
structure SearchResultRow where
  id : Nat
  search_query_id : Nat
  linkedin_url : String
  name : String
  snippet : String
  description : String
  result_payload : Payload
  search_timestamp : Nat
  enriched_timestamp : Option Nat
  executed_by_user_id : Nat
  created_at : Nat
deriving DecidableEq, Repr

/-- The database: the two tables touched by the claims, with the autoincrement
counters that hand out primary keys. -/
structure DB where
  queries : List SearchQueryRow
  results : List SearchResultRow
  nextQueryId : Nat
  nextResultId : Nat
deriving DecidableEq, Repr

/-- Apply `f` to the first list element satisfying `p` (the ORM pattern of
mutating in place the row returned by `.filter(...).first()`). -/
def updateFirst {β : Type} (p : β → Bool) (f : β → β) : List β → List β
  | [] => []
  | x :: xs => if p x then f x :: xs else x :: updateFirst p f xs

namespace SearchQueryRepository

/-- `get_by_id`: first row with the given primary key. -/
def get_by_id (s : DB) (query_id : Nat) : Option SearchQueryRow :=
  s.queries.find? (fun q => q.id == query_id)

/-- `get_by_generated_query`: first row with the given generated-query text. -/
def get_by_generated_query (s : DB) (generated_query : String) :
    Option SearchQueryRow :=
  s.queries.find? (fun q => q.generated_query == generated_query)

/-- `create`: dedup on `generated_query` — if a row with the same generated
query exists, overwrite its `user_input`, stamp `last_search_date` and
`last_run_user_id`, and return it; otherwise insert a fresh row.  Returns the
new state and the returned row's id. -/
def create (s : DB) (user_input generated_query : String)
    (created_user_id now : Nat) : DB × Nat :=
  match get_by_generated_query s generated_query with
  | some existing =>
    let upd := fun q : SearchQueryRow =>
      { q with user_input := user_input, last_search_date := some now, last_run_user_id := some created_user_id }
    let qs := updateFirst (fun q => q.generated_query == generated_query) upd s.queries
    ({ s with queries := qs }, existing.id)
  | none =>
    let fresh : SearchQueryRow :=
      { id := s.nextQueryId, user_input := user_input, generated_query := generated_query, last_search_date := none, created_user_id := created_user_id, last_run_user_id := none, created_at := now }
    ({ s with queries := s.queries ++ [fresh], nextQueryId := s.nextQueryId + 1 },
     s.nextQueryId)

/-- `update_last_search`: stamp `last_search_date` and `last_run_user_id` on
the row with the given id (no-op when absent). -/
def update_last_search (s : DB) (query_id last_run_user_id now : Nat) : DB :=
  let upd := fun q : SearchQueryRow =>
    { q with last_search_date := some now, last_run_user_id := some last_run_user_id }
  { s with queries := updateFirst (fun q => q.id == query_id) upd s.queries }

/-- `update_generated_query`: overwrite the generated-query text of the row
with the given id (no-op when absent). -/
def update_generated_query (s : DB) (query_id : Nat) (g : String) : DB :=
  let upd := fun q : SearchQueryRow => { q with generated_query := g }
  { s with queries := updateFirst (fun q => q.id == query_id) upd s.queries }

/-- `delete`: remove the row with the given id; the `search_results`
relationship carries `cascade="all, delete-orphan"`
(src/app/models/search_query.py), so every result row owned by the deleted
query is removed with it.  Returns whether a row was deleted. -/
def delete (s : DB) (query_id : Nat) : DB × Bool :=
  match get_by_id s query_id with
  | none => (s, false)
  | some _ =>
    ({ s with
        queries := s.queries.eraseP (fun q => q.id == query_id),
        results := s.results.filter (fun r => r.search_query_id != query_id) },
     true)

end SearchQueryRepository

namespace SearchResultRepository

/-- `get_by_id`: first result row with the given primary key. -/
def get_by_id (s : DB) (result_id : Nat) : Option SearchResultRow :=
  s.results.find? (fun r => r.id == result_id)

/-- `get_by_linkedin_url`: `None` for an empty URL, else the first row with
that URL. -/
def get_by_linkedin_url (s : DB) (linkedin_url : String) :
    Option SearchResultRow :=
  if linkedin_url = "" then none
  else s.results.find? (fun r => r.linkedin_url == linkedin_url)

/-- `create`: insert a result row carrying only the owning query, the raw
payload and the acting user (the other columns take their defaults). -/
def create (s : DB) (search_query_id : Nat) (result_payload : Payload)
    (executed_by_user_id now : Nat) : DB × Nat :=
  let fresh : SearchResultRow :=
    { id := s.nextResultId, search_query_id := search_query_id, linkedin_url := "", name := "", snippet := "", description := "", result_payload := result_payload, search_timestamp := now, enriched_timestamp := none, executed_by_user_id := executed_by_user_id, created_at := now }
  ({ s with results := s.results ++ [fresh], nextResultId := s.nextResultId + 1 },
   s.nextResultId)

/-- The update branch of `create_batch`: overwrite the matched row's
`snippet`, `description`, `search_timestamp`, `result_payload` and
`executed_by_user_id` in place. -/
def overwrite (payload : Payload) (executed_by_user_id now : Nat)
    (r : SearchResultRow) : SearchResultRow :=
  { r with snippet := payload.snippet, description := payload.description, search_timestamp := now, result_payload := payload, executed_by_user_id := executed_by_user_id }

/-- The insert branch of `create_batch`: a fresh row built from the payload. -/
def newRow (search_query_id : Nat) (payload : Payload)
    (executed_by_user_id now id : Nat) : SearchResultRow :=
  { id := id, search_query_id := search_query_id, linkedin_url := payload.link, name := payload.name, snippet := payload.snippet, description := payload.description, result_payload := payload, search_timestamp := now, enriched_timestamp := none, executed_by_user_id := executed_by_user_id, created_at := now }

/-- One iteration of the `create_batch` loop: look the payload's `link` up
(an empty link is never looked up), update the matched row in place or insert
a fresh one, and record the resulting row's id in submission order. -/
def create_batch_step (search_query_id executed_by_user_id now : Nat)
    (acc : DB × List Nat) (payload : Payload) : DB × List Nat :=
  let s := acc.1
  match get_by_linkedin_url s payload.link with
  | some existing =>
    let rs := updateFirst (fun r => r.linkedin_url == payload.link) (overwrite payload executed_by_user_id now) s.results
    ({ s with results := rs }, acc.2 ++ [existing.id])
  | none =>
    let rs := s.results ++ [newRow search_query_id payload executed_by_user_id now s.nextResultId]
    ({ s with results := rs, nextResultId := s.nextResultId + 1 },
     acc.2 ++ [s.nextResultId])

/-- `create_batch`: the deduplicating upsert over a batch of payloads, one
`create_batch_step` per payload in submission order.  Returns the new state
and the ids of the resulting rows (updated or inserted), in submission
order. -/
def create_batch (s : DB) (search_query_id : Nat)
    (results_payload : List Payload) (executed_by_user_id now : Nat) :
    DB × List Nat :=
  results_payload.foldl
    (create_batch_step search_query_id executed_by_user_id now) (s, [])

/-- `mark_enriched`: stamp `enriched_timestamp` on the row with the given id
(no-op when absent). -/
def mark_enriched (s : DB) (result_id now : Nat) : DB × Bool :=
  match get_by_id s result_id with
  | none => (s, false)
  | some _ =>
    let rs := updateFirst (fun r => r.id == result_id) (fun r => { r with enriched_timestamp := some now }) s.results
    ({ s with results := rs }, true)

/-- `delete`: remove the result row with the given id. -/
def delete (s : DB) (result_id : Nat) : DB × Bool :=
  match get_by_id s result_id with
  | none => (s, false)
  | some _ =>
    ({ s with results := s.results.eraseP (fun r => r.id == result_id) }, true)

/-- `delete_by_query_id`: remove every result row owned by the query;
returns the number removed. -/
def delete_by_query_id (s : DB) (query_id : Nat) : DB × Nat :=
  ({ s with results := s.results.filter (fun r => r.search_query_id != query_id) },
   (s.results.filter (fun r => r.search_query_id == query_id)).length)

end SearchResultRepository

/-- A mutating repository operation, covering every write of
`SearchQueryRepository` and `SearchResultRepository`. -/
inductive Op where
  | createQuery (user_input generated_query : String) (created_user_id now : Nat)
  | updateLastSearch (query_id last_run_user_id now : Nat)
  | updateGeneratedQuery (query_id : Nat) (g : String)
  | deleteQuery (query_id : Nat)
  | createResult (search_query_id : Nat) (payload : Payload)
      (executed_by_user_id now : Nat)
  | createBatch (search_query_id : Nat) (payloads : List Payload)
      (executed_by_user_id now : Nat)
  | markEnriched (result_id now : Nat)
  | deleteResult (result_id : Nat)
  | deleteByQueryId (query_id : Nat)
deriving DecidableEq, Repr

/-- State effect of one repository operation. -/
def Op.apply (s : DB) : Op → DB
  | .createQuery u g c t => (SearchQueryRepository.create s u g c t).1
  | .updateLastSearch qid uid t => SearchQueryRepository.update_last_search s qid uid t
  | .updateGeneratedQuery qid g => SearchQueryRepository.update_generated_query s qid g
  | .deleteQuery qid => (SearchQueryRepository.delete s qid).1
  | .createResult qid p uid t => (SearchResultRepository.create s qid p uid t).1
  | .createBatch qid ps uid t => (SearchResultRepository.create_batch s qid ps uid t).1
  | .markEnriched rid t => (SearchResultRepository.mark_enriched s rid t).1
  | .deleteResult rid => (SearchResultRepository.delete s rid).1
  | .deleteByQueryId qid => (SearchResultRepository.delete_by_query_id s qid).1

/-- A sequence of repository operations, applied left to right. -/
def applyOps (s : DB) (ops : List Op) : DB := ops.foldl Op.apply s

theorem updateFirst_length {β : Type} (p : β → Bool) (f : β → β) :
    ∀ l : List β, (updateFirst p f l).length = l.length := by
  intro l
  induction l with
  | nil => rfl
  | cons x xs ih =>
    by_cases hx : p x
    · simp [updateFirst, hx]
    · simp [updateFirst, hx, ih]

theorem updateFirst_cons_pos {β : Type} (p : β → Bool) (f : β → β)
    (x : β) (xs : List β) (h : p x = true) :
    updateFirst p f (x :: xs) = f x :: xs := by
  simp [updateFirst, h]

theorem updateFirst_cons_neg {β : Type} (p : β → Bool) (f : β → β)
    (x : β) (xs : List β) (h : ¬ p x = true) :
    updateFirst p f (x :: xs) = x :: updateFirst p f xs := by
  simp [updateFirst, h]

theorem updateFirst_append_of_none {β : Type} (p : β → Bool) (f : β → β)
    (l₁ l₂ : List β) (h : ∀ x ∈ l₁, ¬ p x = true) :
    updateFirst p f (l₁ ++ l₂) = l₁ ++ updateFirst p f l₂ := by
  induction l₁ with
  | nil => rfl
  | cons x xs ih =>
    have hx : ¬ p x = true := h x (List.mem_cons_self x xs)
    rw [List.cons_append, updateFirst_cons_neg _ _ _ _ hx, List.cons_append,
      ih (fun y hy => h y (List.mem_cons_of_mem x hy))]

theorem updateFirst_mem {β : Type} (p : β → Bool) (f : β → β) :
    ∀ l : List β, ∀ x ∈ updateFirst p f l,
      x ∈ l ∨ ∃ y ∈ l, p y = true ∧ x = f y := by
  intro l
  induction l with
  | nil => intro x hx; cases hx
  | cons a as ih =>
    intro x hx
    by_cases ha : p a
    · simp only [updateFirst, ha, if_true] at hx
      rcases List.mem_cons.mp hx with hx | hx
      · exact Or.inr ⟨a, List.mem_cons_self a as, ha, hx⟩
      · exact Or.inl (List.mem_cons_of_mem a hx)
    · simp only [updateFirst, ha, if_false] at hx
      rcases List.mem_cons.mp hx with hx | hx
      · exact Or.inl (hx ▸ List.mem_cons_self a as)
      · rcases ih x hx with hmem | ⟨y, hy, hpy, hxy⟩
        · exact Or.inl (List.mem_cons_of_mem a hmem)
        · exact Or.inr ⟨y, List.mem_cons_of_mem a hy, hpy, hxy⟩

/-- The first row matched by `find?` is the one `updateFirst` rewrites, at
its position; every other position is untouched. -/
theorem find?_updateFirst {β : Type} (p : β → Bool) (f : β → β) :
    ∀ l : List β, ∀ r, l.find? p = some r →
    ∃ i : Nat, l[i]? = some r ∧ (updateFirst p f l)[i]? = some (f r) ∧
      ∀ j : Nat, j ≠ i → (updateFirst p f l)[j]? = l[j]? := by
  intro l
  induction l with
  | nil => intro r hr; cases hr
  | cons a as ih =>
    intro r hr
    by_cases ha : p a
    · rw [List.find?_cons_of_pos _ ha] at hr
      injection hr with hr
      subst hr
      rw [updateFirst_cons_pos _ _ _ _ ha]
      refine ⟨0, by simp, by simp, ?_⟩
      intro j hj
      cases j with
      | zero => exact absurd rfl hj
      | succ j => simp
    · rw [List.find?_cons_of_neg _ ha] at hr
      rcases ih r hr with ⟨i, h1, h2, h3⟩
      rw [updateFirst_cons_neg _ _ _ _ ha]
      refine ⟨i + 1, by simpa using h1, by simpa using h2, ?_⟩
      intro j hj
      cases j with
      | zero => simp
      | succ j =>
        simp only [List.getElem?_cons_succ]
        exact h3 j (by omega)

theorem find?_append_of_none {β : Type} (p : β → Bool) (l₁ l₂ : List β)
    (h : ∀ x ∈ l₁, ¬ p x = true) : (l₁ ++ l₂).find? p = l₂.find? p := by
  induction l₁ with
  | nil => rfl
  | cons x xs ih =>
    have hx : ¬ p x = true := h x (List.mem_cons_self x xs)
    rw [List.cons_append, List.find?_cons_of_neg _ hx]
    exact ih (fun y hy => h y (List.mem_cons_of_mem x hy))

/-- Claim C2: `SearchQueryRepository.create` is idempotent on the generated
query: starting from a state with no row for `g`, creating twice with the
same generated query `g` leaves exactly one stored row with that generated
query — whose `user_input`, last-run timestamp and last-run user come from
the second call and whose creator and creation time come from the first —
and grows the table by one row, not two. -/
theorem claim_C2_create_dedup_idempotent (s : DB) (u1 u2 g : String)
    (c1 c2 t1 t2 : Nat)
    (h : ∀ q ∈ s.queries, q.generated_query ≠ g) :
    ((SearchQueryRepository.create
        (SearchQueryRepository.create s u1 g c1 t1).1 u2 g c2 t2).1.queries.filter
      (fun q => q.generated_query == g)) =
      [{ id := s.nextQueryId, user_input := u2, generated_query := g, last_search_date := some t2, created_user_id := c1, last_run_user_id := some c2, created_at := t1 }] ∧
    (SearchQueryRepository.create
        (SearchQueryRepository.create s u1 g c1 t1).1 u2 g c2 t2).1.queries.length =
      s.queries.length + 1 := by
  have hneg : ∀ q ∈ s.queries, ¬ (q.generated_query == g) = true := by
    intro q hq
    simp [h q hq]
  have hfind : SearchQueryRepository.get_by_generated_query s g = none := by
    unfold SearchQueryRepository.get_by_generated_query
    exact List.find?_eq_none.mpr hneg
  have hs1 : (SearchQueryRepository.create s u1 g c1 t1).1 =
      { s with queries := s.queries ++ [{ id := s.nextQueryId, user_input := u1, generated_query := g, last_search_date := none, created_user_id := c1, last_run_user_id := none, created_at := t1 }], nextQueryId := s.nextQueryId + 1 } := by
    simp only [SearchQueryRepository.create, hfind]
  rw [hs1]
  have hfind2 : SearchQueryRepository.get_by_generated_query
      { s with queries := s.queries ++ [{ id := s.nextQueryId, user_input := u1, generated_query := g, last_search_date := none, created_user_id := c1, last_run_user_id := none, created_at := t1 }], nextQueryId := s.nextQueryId + 1 } g =
      some { id := s.nextQueryId, user_input := u1, generated_query := g, last_search_date := none, created_user_id := c1, last_run_user_id := none, created_at := t1 } := by
    unfold SearchQueryRepository.get_by_generated_query
    simp only []
    rw [find?_append_of_none _ _ _ hneg]
    rw [List.find?_cons_of_pos]
    simp
  have hs2 : (SearchQueryRepository.create
      { s with queries := s.queries ++ [{ id := s.nextQueryId, user_input := u1, generated_query := g, last_search_date := none, created_user_id := c1, last_run_user_id := none, created_at := t1 }], nextQueryId := s.nextQueryId + 1 } u2 g c2 t2).1.queries =
      s.queries ++ [{ id := s.nextQueryId, user_input := u2, generated_query := g, last_search_date := some t2, created_user_id := c1, last_run_user_id := some c2, created_at := t1 }] := by
    simp only [SearchQueryRepository.create, hfind2]
    rw [updateFirst_append_of_none _ _ _ _ hneg]
    simp [updateFirst]
  rw [hs2]
  constructor
  · rw [List.filter_append]
    have h1 : s.queries.filter (fun q => q.generated_query == g) = [] := by
      rw [List.filter_eq_nil_iff]
      exact hneg
    rw [h1]
    simp
  · simp

/-- The empty database. -/
def emptyDB : DB := { queries := [], results := [], nextQueryId := 1, nextResultId := 1 }

theorem claim_C2_witness :
    ((SearchQueryRepository.create
        (SearchQueryRepository.create emptyDB "a" "q" 7 100).1 "b" "q" 8 200).1.queries.filter
      (fun q => q.generated_query == "q")) =
      [{ id := 1, user_input := "b", generated_query := "q", last_search_date := some 200, created_user_id := 7, last_run_user_id := some 8, created_at := 100 }] ∧
    (SearchQueryRepository.create
        (SearchQueryRepository.create emptyDB "a" "q" 7 100).1 "b" "q" 8 200).1.queries.length =
      emptyDB.queries.length + 1 :=
  claim_C2_create_dedup_idempotent emptyDB "a" "b" "q" 7 8 100 200 (by decide)

/-- `overwrite` does not change the row's URL. -/
theorem overwrite_linkedin_url (payload : Payload) (uid now : Nat)
    (r : SearchResultRow) :
    (SearchResultRepository.overwrite payload uid now r).linkedin_url =
      r.linkedin_url := rfl


/-- Claim C1: a two-record batch in which the first record's URL matches a
stored record and the second's matches none performs exactly one in-place
update (the matched row, at its position, gets the overwritten snippet,
description, payload, timestamp and acting user; every other old position is
untouched) and exactly one insert (a fresh row appended at the end), and the
returned ids list the updated then the inserted record in submission
order. -/
theorem claim_C1_one_update_one_insert (s : DB) (qid uid now : Nat)
    (p1 p2 : Payload) (r : SearchResultRow)
    (h1 : SearchResultRepository.get_by_linkedin_url s p1.link = some r)
    (h2 : SearchResultRepository.get_by_linkedin_url s p2.link = none) :
    (SearchResultRepository.create_batch s qid [p1, p2] uid now).1.results.length =
      s.results.length + 1 ∧
    (SearchResultRepository.create_batch s qid [p1, p2] uid now).2 =
      [r.id, s.nextResultId] ∧
    (∃ i : Nat, s.results[i]? = some r ∧
      (SearchResultRepository.create_batch s qid [p1, p2] uid now).1.results[i]? =
        some (SearchResultRepository.overwrite p1 uid now r) ∧
      ∀ j : Nat, j ≠ i → j < s.results.length →
        (SearchResultRepository.create_batch s qid [p1, p2] uid now).1.results[j]? =
          s.results[j]?) ∧
    (SearchResultRepository.create_batch s qid [p1, p2] uid now).1.results[s.results.length]? =
      some (SearchResultRepository.newRow qid p2 uid now s.nextResultId) := by
  have hne1 : ¬ p1.link = "" := by
    intro he
    rw [SearchResultRepository.get_by_linkedin_url, if_pos he] at h1
    cases h1
  have hfind1 : s.results.find? (fun x => x.linkedin_url == p1.link) = some r := by
    rw [SearchResultRepository.get_by_linkedin_url, if_neg hne1] at h1
    exact h1
  set u := updateFirst (fun x => x.linkedin_url == p1.link)
    (SearchResultRepository.overwrite p1 uid now) s.results with hu
  have hstep1 : SearchResultRepository.create_batch_step qid uid now (s, []) p1 =
      ({ s with results := u }, [r.id]) := by
    simp only [SearchResultRepository.create_batch_step, h1, hu]
    rfl
  have hlook2 : SearchResultRepository.get_by_linkedin_url
      { s with results := u } p2.link = none := by
    by_cases hni : p2.link = ""
    · rw [SearchResultRepository.get_by_linkedin_url, if_pos hni]
    · rw [SearchResultRepository.get_by_linkedin_url, if_neg hni]
      rw [SearchResultRepository.get_by_linkedin_url, if_neg hni] at h2
      have hsrc : ∀ y ∈ s.results, ¬ (y.linkedin_url == p2.link) = true :=
        List.find?_eq_none.mp h2
      apply List.find?_eq_none.mpr
      intro x hx
      rcases updateFirst_mem _ _ s.results x hx with hmem | ⟨y, hy, _, hxy⟩
      · exact hsrc x hmem
      · rw [hxy]
        intro hc
        rw [show (SearchResultRepository.overwrite p1 uid now y).linkedin_url = y.linkedin_url from rfl] at hc
        exact hsrc y hy hc
  have hstep2 : SearchResultRepository.create_batch_step qid uid now
      ({ s with results := u }, [r.id]) p2 =
      ({ s with results := u ++ [SearchResultRepository.newRow qid p2 uid now s.nextResultId], nextResultId := s.nextResultId + 1 },
       [r.id, s.nextResultId]) := by
    simp only [SearchResultRepository.create_batch_step, hlook2]
    rfl
  have hcb : SearchResultRepository.create_batch s qid [p1, p2] uid now =
      ({ s with results := u ++ [SearchResultRepository.newRow qid p2 uid now s.nextResultId], nextResultId := s.nextResultId + 1 },
       [r.id, s.nextResultId]) := by
    simp only [SearchResultRepository.create_batch, List.foldl, hstep1, hstep2]
  rw [hcb]
  have hulen : u.length = s.results.length := updateFirst_length _ _ s.results
  refine ⟨by simp [hulen], rfl, ?_, ?_⟩
  · rcases find?_updateFirst (fun x => x.linkedin_url == p1.link)
      (SearchResultRepository.overwrite p1 uid now) s.results r hfind1 with
      ⟨i, hi1, hi2, hi3⟩
    have hilt : i < s.results.length := by
      by_contra hge
      rw [List.getElem?_eq_none (by omega)] at hi1
      cases hi1
    refine ⟨i, hi1, ?_, ?_⟩
    · rw [List.getElem?_append_left (by omega)]
      exact hi2
    · intro j hj hjlt
      rw [List.getElem?_append_left (by rw [hulen]; exact hjlt)]
      exact hi3 j hj
  · rw [← hulen]
    exact List.getElem?_concat_length _ _

/-- Payload stored behind the pre-existing row of `dbOneResult`. -/
def pA : Payload := { link := "a", name := "n", snippet := "s0", description := "d0" }

/-- A stored result row with URL "a". -/
def rowA : SearchResultRow :=
  { id := 1, search_query_id := 1, linkedin_url := "a", name := "n", snippet := "s0", description := "d0", result_payload := pA, search_timestamp := 10, enriched_timestamp := none, executed_by_user_id := 1, created_at := 10 }

/-- A database holding exactly the stored row `rowA`. -/
def dbOneResult : DB :=
  { queries := [], results := [rowA], nextQueryId := 1, nextResultId := 2 }

/-- A submitted record whose URL matches `rowA`. -/
def pA1 : Payload := { link := "a", name := "n1", snippet := "s1", description := "d1" }

/-- A submitted record with a new URL. -/
def pA2 : Payload := { link := "b", name := "n2", snippet := "s2", description := "d2" }

theorem claim_C1_witness :
    (SearchResultRepository.create_batch dbOneResult 5 [pA1, pA2] 9 50).1.results.length =
      dbOneResult.results.length + 1 ∧
    (SearchResultRepository.create_batch dbOneResult 5 [pA1, pA2] 9 50).2 = [1, 2] :=
  ⟨(claim_C1_one_update_one_insert dbOneResult 5 9 50 pA1 pA2 rowA (by decide) (by decide)).1,
   (claim_C1_one_update_one_insert dbOneResult 5 9 50 pA1 pA2 rowA (by decide) (by decide)).2.1⟩

/-- The rows appended by a run of the insert branch: consecutive fresh ids
starting at `base`, one row per payload. -/
def insertedRows (search_query_id executed_by_user_id now : Nat) :
    Nat → List Payload → List SearchResultRow
  | _, [] => []
  | base, p :: ps =>
    SearchResultRepository.newRow search_query_id p executed_by_user_id now base ::
      insertedRows search_query_id executed_by_user_id now (base + 1) ps

theorem insertedRows_length (qid uid now : Nat) :
    ∀ (ps : List Payload) (base : Nat),
      (insertedRows qid uid now base ps).length = ps.length := by
  intro ps
  induction ps with
  | nil => intro base; rfl
  | cons p ps ih => intro base; simp [insertedRows, ih]

/-- On a batch whose payloads all lack a URL, every iteration takes the
insert branch: no lookup ever matches, the existing rows are untouched, and
each payload becomes a fresh row with its own fresh id. -/
theorem create_batch_all_empty_links (qid uid now : Nat) :
    ∀ (ps : List Payload) (s : DB) (acc : List Nat),
    (∀ p ∈ ps, p.link = "") →
    ps.foldl (SearchResultRepository.create_batch_step qid uid now) (s, acc) =
      ({ s with results := s.results ++ insertedRows qid uid now s.nextResultId ps, nextResultId := s.nextResultId + ps.length },
       acc ++ (List.range ps.length).map (fun i => s.nextResultId + i)) := by
  intro ps
  induction ps with
  | nil =>
    intro s acc h
    simp [insertedRows]
  | cons p ps ih =>
    intro s acc h
    have hp : p.link = "" := h p (List.mem_cons_self p ps)
    have hlook : SearchResultRepository.get_by_linkedin_url s p.link = none := by
      rw [SearchResultRepository.get_by_linkedin_url, if_pos hp]
    have hstep : SearchResultRepository.create_batch_step qid uid now (s, acc) p =
        ({ s with results := s.results ++ [SearchResultRepository.newRow qid p uid now s.nextResultId], nextResultId := s.nextResultId + 1 }, acc ++ [s.nextResultId]) := by
      simp only [SearchResultRepository.create_batch_step, hlook]
    rw [List.foldl_cons, hstep, ih _ _ (fun q hq => h q (List.mem_cons_of_mem p hq))]
    simp only [Prod.mk.injEq]
    constructor
    · congr 1
      · rw [List.append_assoc]
        rfl
      · simp [insertedRows_length]
        omega
    · rw [List.append_assoc]
      congr 1
      simp only [List.length_cons, List.singleton_append]
      conv_rhs => rw [List.range_succ_eq_map]
      rw [List.map_cons, List.map_map]
      simp only [List.cons.injEq]
      refine ⟨by simp, ?_⟩
      refine List.map_congr_left ?_
      intro i _
      simp only [Function.comp_apply, Nat.succ_eq_add_one]
      omega

/-- Claim C6: every record in a batch whose URL field is empty is inserted
fresh: no lookup is performed against stored rows (even URL-less stored
ones) or against the other URL-less records of the same batch, so a batch of
URL-less records grows the table by exactly one fresh row per record, each
with its own new id. -/
theorem claim_C6_no_url_always_inserted (s : DB) (qid uid now : Nat)
    (ps : List Payload) (h : ∀ p ∈ ps, p.link = "") :
    (SearchResultRepository.create_batch s qid ps uid now).1.results =
      s.results ++ insertedRows qid uid now s.nextResultId ps ∧
    (SearchResultRepository.create_batch s qid ps uid now).2 =
      (List.range ps.length).map (fun i => s.nextResultId + i) ∧
    (SearchResultRepository.create_batch s qid ps uid now).1.results.length =
      s.results.length + ps.length := by
  have hrun := create_batch_all_empty_links qid uid now ps s [] h
  unfold SearchResultRepository.create_batch
  rw [hrun]
  refine ⟨rfl, by simp, ?_⟩
  simp [insertedRows_length]

/-- A URL-less submitted record. -/
def pEmpty : Payload := { link := "", name := "m", snippet := "s", description := "d" }

/-- A stored row that itself lacks a URL. -/
def rowNoUrl : SearchResultRow :=
  { id := 3, search_query_id := 1, linkedin_url := "", name := "m", snippet := "s", description := "d", result_payload := pEmpty, search_timestamp := 10, enriched_timestamp := none, executed_by_user_id := 1, created_at := 10 }

/-- A database holding exactly the URL-less stored row `rowNoUrl`. -/
def dbNoUrl : DB :=
  { queries := [], results := [rowNoUrl], nextQueryId := 1, nextResultId := 4 }

theorem claim_C6_witness :
    (SearchResultRepository.create_batch dbNoUrl 3 [pEmpty, pEmpty] 9 50).2 = [4, 5] ∧
    (SearchResultRepository.create_batch dbNoUrl 3 [pEmpty, pEmpty] 9 50).1.results.length = 3 := by
  have h := claim_C6_no_url_always_inserted dbNoUrl 3 9 50 [pEmpty, pEmpty] (by decide)
  refine ⟨?_, ?_⟩
  · rw [h.2.1]
    rfl
  · rw [h.2.2]
    rfl

/-- Claim C10: when a batch record matches a stored row by URL, the in-place
update (the `create_batch` loop body applied to the current state) leaves the
matched row's owning query reference, URL, name, enrichment timestamp and
creation time unchanged — in particular, whatever query id the batch was
called with (it is universally quantified here and never read by the update),
the row keeps its own `search_query_id`. -/
theorem claim_C10_update_preserves_frame (s : DB) (qid uid now : Nat)
    (ids : List Nat) (p : Payload) (r : SearchResultRow)
    (h : SearchResultRepository.get_by_linkedin_url s p.link = some r) :
    ∃ i : Nat, s.results[i]? = some r ∧
      (SearchResultRepository.create_batch_step qid uid now (s, ids) p).1.results[i]? =
        some (SearchResultRepository.overwrite p uid now r) ∧
      (SearchResultRepository.overwrite p uid now r).search_query_id = r.search_query_id ∧
      (SearchResultRepository.overwrite p uid now r).linkedin_url = r.linkedin_url ∧
      (SearchResultRepository.overwrite p uid now r).name = r.name ∧
      (SearchResultRepository.overwrite p uid now r).enriched_timestamp = r.enriched_timestamp ∧
      (SearchResultRepository.overwrite p uid now r).created_at = r.created_at := by
  have hne : ¬ p.link = "" := by
    intro he
    rw [SearchResultRepository.get_by_linkedin_url, if_pos he] at h
    cases h
  have hfind : s.results.find? (fun x => x.linkedin_url == p.link) = some r := by
    rw [SearchResultRepository.get_by_linkedin_url, if_neg hne] at h
    exact h
  have hstep : (SearchResultRepository.create_batch_step qid uid now (s, ids) p).1.results =
      updateFirst (fun x => x.linkedin_url == p.link)
        (SearchResultRepository.overwrite p uid now) s.results := by
    simp only [SearchResultRepository.create_batch_step, h]
  rcases find?_updateFirst (fun x => x.linkedin_url == p.link)
    (SearchResultRepository.overwrite p uid now) s.results r hfind with ⟨i, h1, h2, _⟩
  refine ⟨i, h1, ?_, rfl, rfl, rfl, rfl, rfl⟩
  rw [hstep]
  exact h2

theorem claim_C10_witness :
    (SearchResultRepository.create_batch_step 5 9 50 (dbOneResult, []) pA1).1.results[0]? =
      some (SearchResultRepository.overwrite pA1 9 50 rowA) ∧
    (SearchResultRepository.overwrite pA1 9 50 rowA).search_query_id = 1 := by
  rcases claim_C10_update_preserves_frame dbOneResult 5 9 50 [] pA1 rowA (by decide) with
    ⟨i, h1, h2, h3, _⟩
  have hlen : dbOneResult.results.length = 1 := rfl
  have hi : i = 0 := by
    by_contra hne
    rw [List.getElem?_eq_none (by omega)] at h1
    cases h1
  subst hi
  exact ⟨h2, h3.trans rfl⟩

/-- Evolution relation on result rows: every row of the later state either
derives from a row of the earlier state with the same id, its enrichment
timestamp equal or set, or is a fresh insert carrying a new id. -/
def RowsEvolve (s s' : DB) : Prop :=
  s.nextResultId ≤ s'.nextResultId ∧
  ∀ r' ∈ s'.results,
    (∃ r0 ∈ s.results, r'.id = r0.id ∧
      (r'.enriched_timestamp = r0.enriched_timestamp ∨
       (r'.enriched_timestamp).isSome = true)) ∨
    s.nextResultId ≤ r'.id

theorem rowsEvolve_same (s s' : DB) (hr : s'.results = s.results)
    (hn : s'.nextResultId = s.nextResultId) : RowsEvolve s s' := by
  unfold RowsEvolve
  rw [hr, hn]
  exact ⟨Nat.le_refl _, fun r' hr' => Or.inl ⟨r', hr', rfl, Or.inl rfl⟩⟩

theorem rowsEvolve_subset (s s' : DB) (hn : s.nextResultId ≤ s'.nextResultId)
    (hsub : ∀ r' ∈ s'.results, r' ∈ s.results) : RowsEvolve s s' := by
  unfold RowsEvolve
  exact ⟨hn, fun r' hr' => Or.inl ⟨r', hsub r' hr', rfl, Or.inl rfl⟩⟩

theorem rowsEvolve_updateFirst (s : DB) (p : SearchResultRow → Bool)
    (f : SearchResultRow → SearchResultRow)
    (hid : ∀ x, (f x).id = x.id)
    (henr : ∀ x, (f x).enriched_timestamp = x.enriched_timestamp ∨
      ((f x).enriched_timestamp).isSome = true) :
    RowsEvolve s { s with results := updateFirst p f s.results } := by
  unfold RowsEvolve
  refine ⟨Nat.le_refl _, ?_⟩
  intro r' hr'
  rcases updateFirst_mem p f s.results r' hr' with hmem | ⟨y, hy, _, hxy⟩
  · exact Or.inl ⟨r', hmem, rfl, Or.inl rfl⟩
  · subst hxy
    exact Or.inl ⟨y, hy, hid y, henr y⟩

theorem rowsEvolve_insert (s : DB) (row : SearchResultRow)
    (hrow : s.nextResultId ≤ row.id) :
    RowsEvolve s
      { s with results := s.results ++ [row], nextResultId := s.nextResultId + 1 } := by
  unfold RowsEvolve
  refine ⟨Nat.le_succ _, ?_⟩
  intro r' hr'
  rcases List.mem_append.mp hr' with hmem | hmem
  · exact Or.inl ⟨r', hmem, rfl, Or.inl rfl⟩
  · rw [List.mem_singleton] at hmem
    subst hmem
    exact Or.inr hrow

theorem rowsEvolve_trans {s₁ s₂ s₃ : DB} (h12 : RowsEvolve s₁ s₂)
    (h23 : RowsEvolve s₂ s₃) : RowsEvolve s₁ s₃ := by
  obtain ⟨hn12, hr12⟩ := h12
  obtain ⟨hn23, hr23⟩ := h23
  refine ⟨Nat.le_trans hn12 hn23, ?_⟩
  intro r' hr'
  rcases hr23 r' hr' with ⟨r1, hr1, hid, henr⟩ | hfresh
  · rcases hr12 r1 hr1 with ⟨r0, hr0, hid0, henr0⟩ | hfresh1
    · refine Or.inl ⟨r0, hr0, hid.trans hid0, ?_⟩
      rcases henr with he | hs
      · rcases henr0 with he0 | hs0
        · exact Or.inl (he.trans he0)
        · refine Or.inr ?_
          rw [he]
          exact hs0
      · exact Or.inr hs
    · refine Or.inr ?_
      rw [hid]
      exact hfresh1
  · exact Or.inr (Nat.le_trans hn12 hfresh)

theorem createBatchStep_evolve (qid uid now : Nat) (s : DB) (acc : List Nat)
    (p : Payload) :
    RowsEvolve s (SearchResultRepository.create_batch_step qid uid now (s, acc) p).1 := by
  simp only [SearchResultRepository.create_batch_step]
  cases hm : SearchResultRepository.get_by_linkedin_url s p.link with
  | some ex =>
    exact rowsEvolve_updateFirst s _ _ (fun x => rfl) (fun x => Or.inl rfl)
  | none =>
    exact rowsEvolve_insert s _ (Nat.le_refl _)

theorem foldl_createBatchStep_evolve (qid uid now : Nat) :
    ∀ (ps : List Payload) (s : DB) (acc : List Nat),
    RowsEvolve s
      (ps.foldl (SearchResultRepository.create_batch_step qid uid now) (s, acc)).1 := by
  intro ps
  induction ps with
  | nil => intro s acc; exact rowsEvolve_same s s rfl rfl
  | cons p ps ih =>
    intro s acc
    rw [List.foldl_cons]
    rcases hpair : SearchResultRepository.create_batch_step qid uid now (s, acc) p with
      ⟨s₁, acc₁⟩
    have h1 := createBatchStep_evolve qid uid now s acc p
    rw [hpair] at h1
    exact rowsEvolve_trans h1 (ih s₁ acc₁)

/-- Every repository write evolves the result rows in the
enrichment-preserving sense. -/
theorem op_evolve (s : DB) (op : Op) : RowsEvolve s (Op.apply s op) := by
  cases op with
  | createQuery u g c t =>
    simp only [Op.apply, SearchQueryRepository.create]
    cases hm : SearchQueryRepository.get_by_generated_query s g with
    | some q => exact rowsEvolve_same s _ rfl rfl
    | none => exact rowsEvolve_same s _ rfl rfl
  | updateLastSearch qid uid t => exact rowsEvolve_same s _ rfl rfl
  | updateGeneratedQuery qid g => exact rowsEvolve_same s _ rfl rfl
  | deleteQuery qid =>
    simp only [Op.apply, SearchQueryRepository.delete]
    cases hm : SearchQueryRepository.get_by_id s qid with
    | none => exact rowsEvolve_same s _ rfl rfl
    | some q =>
      exact rowsEvolve_subset s _ (Nat.le_refl _)
        (fun r' hr' => List.mem_of_mem_filter hr')
  | createResult qid p uid t =>
    exact rowsEvolve_insert s _ (Nat.le_refl _)
  | createBatch qid ps uid t =>
    exact foldl_createBatchStep_evolve qid uid t ps s []
  | markEnriched rid t =>
    simp only [Op.apply, SearchResultRepository.mark_enriched]
    cases hm : SearchResultRepository.get_by_id s rid with
    | none => exact rowsEvolve_same s _ rfl rfl
    | some q =>
      exact rowsEvolve_updateFirst s _ _ (fun x => rfl) (fun x => Or.inr rfl)
  | deleteResult rid =>
    simp only [Op.apply, SearchResultRepository.delete]
    cases hm : SearchResultRepository.get_by_id s rid with
    | none => exact rowsEvolve_same s _ rfl rfl
    | some q =>
      exact rowsEvolve_subset s _ (Nat.le_refl _)
        (fun r' hr' => (List.eraseP_sublist _).subset hr')
  | deleteByQueryId qid =>
    exact rowsEvolve_subset s _ (Nat.le_refl _)
      (fun r' hr' => List.mem_of_mem_filter hr')

theorem applyOps_evolve : ∀ (ops : List Op) (s : DB), RowsEvolve s (applyOps s ops) := by
  intro ops
  induction ops with
  | nil => intro s; exact rowsEvolve_same s s rfl rfl
  | cons op ops ih =>
    intro s
    exact rowsEvolve_trans (op_evolve s op) (ih (Op.apply s op))

/-- Claim C9: the enrichment timestamp is one-way.  Starting from any
well-formed state (result ids distinct and below the autoincrement counter),
no sequence of repository operations ever takes a result row's
`enriched_timestamp` from set back to unset: if the row with a given id was
enriched before, and a row with that id still exists afterwards, it is still
enriched.  (`mark_enriched` only sets the stamp, and the batch-upsert update
branch never touches it.) -/
theorem claim_C9_enriched_one_way (s : DB) (ops : List Op) (rid : Nat)
    (r r' : SearchResultRow)
    (hbound : ∀ x ∈ s.results, x.id < s.nextResultId)
    (hnodup : (s.results.map (fun x => x.id)).Nodup)
    (hr : SearchResultRepository.get_by_id s rid = some r)
    (hset : (r.enriched_timestamp).isSome = true)
    (hr' : SearchResultRepository.get_by_id (applyOps s ops) rid = some r') :
    (r'.enriched_timestamp).isSome = true := by
  obtain ⟨hn, hrows⟩ := applyOps_evolve ops s
  unfold SearchResultRepository.get_by_id at hr hr'
  have hrmem : r ∈ s.results := List.mem_of_find?_eq_some hr
  have hrid : r.id = rid := by
    have := List.find?_some hr
    simpa using this
  have hr'mem : r' ∈ (applyOps s ops).results := List.mem_of_find?_eq_some hr'
  have hr'id : r'.id = rid := by
    have := List.find?_some hr'
    simpa using this
  rcases hrows r' hr'mem with ⟨r0, hr0mem, hid0, henr0⟩ | hfresh
  · have hr0r : r0 = r := by
      refine List.inj_on_of_nodup_map hnodup hr0mem hrmem ?_
      show r0.id = r.id
      omega
    rcases henr0 with he | hs
    · rw [he, hr0r]
      exact hset
    · exact hs
  · exfalso
    have hb := hbound r hrmem
    omega

/-- A stored result row that is already enriched. -/
def rowEnr : SearchResultRow :=
  { id := 1, search_query_id := 1, linkedin_url := "e", name := "n", snippet := "s", description := "d", result_payload := pA, search_timestamp := 10, enriched_timestamp := some 5, executed_by_user_id := 1, created_at := 10 }

/-- A database holding exactly the enriched row `rowEnr`. -/
def dbEnr : DB :=
  { queries := [], results := [rowEnr], nextQueryId := 1, nextResultId := 2 }

theorem claim_C9_witness :
    (({ id := 1, search_query_id := 1, linkedin_url := "e", name := "n", snippet := "s", description := "d", result_payload := pA, search_timestamp := 10, enriched_timestamp := some 99, executed_by_user_id := 1, created_at := 10 } : SearchResultRow).enriched_timestamp).isSome = true :=
  claim_C9_enriched_one_way dbEnr [Op.deleteByQueryId 7, Op.markEnriched 1 99] 1
    rowEnr
    { id := 1, search_query_id := 1, linkedin_url := "e", name := "n", snippet := "s", description := "d", result_payload := pA, search_timestamp := 10, enriched_timestamp := some 99, executed_by_user_id := 1, created_at := 10 }
    (by decide) (by decide) (by decide) (by decide) (by decide)

theorem eraseP_id_no_match (t : Nat) :
    ∀ (l : List SearchQueryRow), (l.map (fun q => q.id)).Nodup →
    ∀ q' ∈ l.eraseP (fun q => q.id == t), q'.id ≠ t := by
  intro l
  induction l with
  | nil =>
    intro _ q' hq'
    simp [List.eraseP] at hq'
  | cons x xs ih =>
    intro hnodup q' hq'
    rw [List.map_cons] at hnodup
    have hnd := List.nodup_cons.mp hnodup
    by_cases hx : (x.id == t) = true
    · simp only [List.eraseP_cons, hx, cond_true] at hq'
      intro hq'id
      have hxid : x.id = t := by simpa using hx
      exact hnd.1 (List.mem_map.mpr ⟨q', hq', by rw [hq'id, hxid]⟩)
    · have hxf : (x.id == t) = false := by simpa using hx
      simp only [List.eraseP_cons, hxf, cond_false] at hq'
      rcases List.mem_cons.mp hq' with hq'x | hq'mem
      · subst hq'x
        simpa using hx
      · exact ih hnd.2 q' hq'mem

/-- Claim C8: deleting an existing query cascades: the query row disappears,
every result row owned by it disappears, and referential integrity (every
result row references an existing query) is preserved. -/
theorem claim_C8_delete_cascades (s : DB) (qid : Nat)
    (hex : ∃ q ∈ s.queries, q.id = qid)
    (hnodup : (s.queries.map (fun q => q.id)).Nodup)
    (hri : ∀ r ∈ s.results, ∃ q ∈ s.queries, q.id = r.search_query_id) :
    (SearchQueryRepository.delete s qid).2 = true ∧
    (∀ q ∈ (SearchQueryRepository.delete s qid).1.queries, q.id ≠ qid) ∧
    (∀ r ∈ (SearchQueryRepository.delete s qid).1.results, r.search_query_id ≠ qid) ∧
    (∀ r ∈ (SearchQueryRepository.delete s qid).1.results,
      ∃ q ∈ (SearchQueryRepository.delete s qid).1.queries,
        q.id = r.search_query_id) := by
  obtain ⟨q0, hq0mem, hq0id⟩ := hex
  have hfind : ∃ qf, SearchQueryRepository.get_by_id s qid = some qf := by
    cases hf : SearchQueryRepository.get_by_id s qid with
    | some qf => exact ⟨qf, rfl⟩
    | none =>
      unfold SearchQueryRepository.get_by_id at hf
      have := List.find?_eq_none.mp hf q0 hq0mem
      simp [hq0id] at this
  obtain ⟨qf, hqf⟩ := hfind
  have hdel : SearchQueryRepository.delete s qid =
      ({ s with queries := s.queries.eraseP (fun q => q.id == qid), results := s.results.filter (fun r => r.search_query_id != qid) }, true) := by
    simp only [SearchQueryRepository.delete, hqf]
  rw [hdel]
  refine ⟨rfl, ?_, ?_, ?_⟩
  · exact eraseP_id_no_match qid s.queries hnodup
  · intro r hr
    have := (List.mem_filter.mp hr).2
    simpa using this
  · intro r hr
    have hrmem : r ∈ s.results := (List.mem_filter.mp hr).1
    have hrne : r.search_query_id ≠ qid := by
      have := (List.mem_filter.mp hr).2
      simpa using this
    obtain ⟨q, hqmem, hqid⟩ := hri r hrmem
    refine ⟨q, ?_, hqid⟩
    rw [List.mem_eraseP_of_neg]
    · exact hqmem
    · simp [hqid]
      exact hrne

/-- First stored query. -/
def q1row : SearchQueryRow :=
  { id := 1, user_input := "u1", generated_query := "g1", last_search_date := none, created_user_id := 1, last_run_user_id := none, created_at := 0 }

/-- Second stored query. -/
def q2row : SearchQueryRow :=
  { id := 2, user_input := "u2", generated_query := "g2", last_search_date := none, created_user_id := 1, last_run_user_id := none, created_at := 0 }

/-- A result owned by query 1. -/
def rQ1 : SearchResultRow :=
  { id := 1, search_query_id := 1, linkedin_url := "x", name := "n", snippet := "s", description := "d", result_payload := pA, search_timestamp := 10, enriched_timestamp := none, executed_by_user_id := 1, created_at := 10 }

/-- A result owned by query 2. -/
def rQ2 : SearchResultRow :=
  { id := 2, search_query_id := 2, linkedin_url := "y", name := "n", snippet := "s", description := "d", result_payload := pA, search_timestamp := 10, enriched_timestamp := none, executed_by_user_id := 1, created_at := 10 }

/-- Two queries, each owning one result. -/
def dbCascade : DB :=
  { queries := [q1row, q2row], results := [rQ1, rQ2], nextQueryId := 3, nextResultId := 3 }

theorem claim_C8_witness :
    (SearchQueryRepository.delete dbCascade 1).2 = true ∧
    (SearchQueryRepository.delete dbCascade 1).1.results = [rQ2] :=
  ⟨(claim_C8_delete_cascades dbCascade 1 (by decide) (by decide) (by decide)).1,
   by decide⟩
